import Mathlib

/-!
Verification of the audio-wire streaming pipeline (src/src/main.rs).

The file embeds, as pure Lean functions, the parts of the program the
claims are about:

* the Chunk Accumulator drain loop inside capture_loop (lines 66-82):
  a VecDeque of bytes drained into fixed-size chunks while strictly more
  than blockalign * chunksize bytes are buffered;
* the exit behaviour of the capture loop on a device-read failure and on a
  wait_for_event timeout (lines 76-81);
* the sink loop of the sender (lines 123-136): recv a chunk, write it to the
  TCP stream, then write it to the local log file, each write fallible;
* the accept/read loop of the receiver (lines 146-165): a zero-length read
  returns to accepting, a read error propagates out of main via the
  question-mark operator;
* the Transport Channel (std::sync::mpsc::sync_channel(2)), an external
  standard-library collaborator, modelled from the spec as a bounded
  FIFO queue.

Bytes are modelled as natural numbers: the claims never inspect byte
values, only their order and count.
-/

namespace AudioWire

/-- Chunk size in bytes: the code drains chunks of
blockalign * chunksize bytes (main.rs line 67 and 69). -/
def chunkBytes (blockalign chunksize : Nat) : Nat := blockalign * chunksize

/-- One VecDeque::pop_front: yields the oldest buffered byte and the rest,
or nothing when the queue is empty. -/
def popFront : List Nat → Option (Nat × List Nat)
  | [] => none
  | b :: q => some (b, q)

/-- The inner for-loop of the drain (main.rs lines 70-72): fill a chunk of n
bytes by n successive pop_front calls.  The none outcome is exactly the
situation in which pop_front().unwrap() would panic. -/
def popN : Nat → List Nat → Option (List Nat × List Nat)
  | 0, q => some ([], q)
  | n + 1, q =>
    match popFront q with
    | none => none
    | some (b, q1) =>
      match popN n q1 with
      | none => none
      | some (c, r) => some (b :: c, r)

/-- The drain while-loop (main.rs lines 67-74), fuelled: while strictly more
than cb bytes are buffered, remove cb bytes from the front and emit them as
one chunk.  Returns the emitted chunks in order and the residual queue.
Fuel bounds the iteration count; drainLoop supplies enough fuel for every
positive cb (each iteration removes cb ≥ 1 bytes). -/
def drainFuel (cb : Nat) : Nat → List Nat → List (List Nat) × List Nat
  | 0, q => ([], q)
  | f + 1, q =>
    if cb < q.length then
      match popN cb q with
      | some (chunk, rest) =>
        let p := drainFuel cb f rest
        (chunk :: p.1, p.2)
      | none => ([], q)
    else ([], q)

/-- The drain while-loop run to completion on queue q. -/
def drainLoop (cb : Nat) (q : List Nat) : List (List Nat) × List Nat :=
  drainFuel cb q.length q

/-- The Chunk Accumulator across capture cycles: each push appends the bytes
read from the device to the residual queue, then the drain loop runs
(main.rs loop at lines 66-82: drain, then read_from_device_to_deque).
Returns all chunks emitted, in order, and the final residual queue. -/
def accumRun (cb : Nat) : List Nat → List (List Nat) → List (List Nat) × List Nat
  | resid, [] => ([], resid)
  | resid, p :: ps =>
    let d := drainLoop cb (resid ++ p)
    let rest := accumRun cb d.2 ps
    (d.1 ++ rest.1, rest.2)

/-! ### Basic lemmas about the drain loop -/

theorem popN_eq_of_le (n : Nat) : ∀ q : List Nat, n ≤ q.length →
    popN n q = some (q.take n, q.drop n) := by
  induction n with
  | zero => intro q _; simp [popN]
  | succ n ih =>
    intro q h
    cases q with
    | nil => simp at h
    | cons b q =>
      have h1 : n ≤ q.length := by simp at h; omega
      simp [popN, popFront, ih q h1]

theorem drainFuel_of_le (cb f : Nat) (q : List Nat) (h : q.length ≤ cb) :
    drainFuel cb f q = ([], q) := by
  cases f with
  | zero => rfl
  | succ f => simp [drainFuel, Nat.not_lt.mpr h]

theorem drainFuel_succ (cb f : Nat) (q : List Nat) (h : cb < q.length) :
    drainFuel cb (f + 1) q =
      (q.take cb :: (drainFuel cb f (q.drop cb)).1, (drainFuel cb f (q.drop cb)).2) := by
  simp [drainFuel, h, popN_eq_of_le cb q (Nat.le_of_lt h)]

theorem drainFuel_join (cb : Nat) : ∀ (f : Nat) (q : List Nat),
    ((drainFuel cb f q).1).flatten ++ (drainFuel cb f q).2 = q := by
  intro f
  induction f with
  | zero => intro q; simp [drainFuel]
  | succ f ih =>
    intro q
    by_cases h : cb < q.length
    · rw [drainFuel_succ cb f q h]
      simp only [List.flatten_cons, List.append_assoc, ih (q.drop cb)]
      exact List.take_append_drop cb q
    · rw [drainFuel_of_le cb (f + 1) q (Nat.not_lt.mp h)]
      simp

theorem drainFuel_blocks (cb : Nat) : ∀ (f : Nat) (q : List Nat),
    ∀ b ∈ (drainFuel cb f q).1, b.length = cb := by
  intro f
  induction f with
  | zero => intro q b hb; simp [drainFuel] at hb
  | succ f ih =>
    intro q b hb
    by_cases h : cb < q.length
    · rw [drainFuel_succ cb f q h] at hb
      simp only [List.mem_cons] at hb
      rcases hb with hb | hb
      · subst hb
        simp [List.length_take]
        omega
      · exact ih (q.drop cb) b hb
    · rw [drainFuel_of_le cb (f + 1) q (Nat.not_lt.mp h)] at hb
      simp at hb

theorem drainFuel_resid (cb : Nat) (hcb : 0 < cb) : ∀ (f : Nat) (q : List Nat),
    q.length ≤ f + cb → ((drainFuel cb f q).2).length ≤ cb := by
  intro f
  induction f with
  | zero => intro q h; simpa [drainFuel] using h
  | succ f ih =>
    intro q h
    by_cases hlt : cb < q.length
    · rw [drainFuel_succ cb f q hlt]
      refine ih (q.drop cb) ?_
      simp [List.length_drop]
      omega
    · rw [drainFuel_of_le cb (f + 1) q (Nat.not_lt.mp hlt)]
      exact Nat.not_lt.mp hlt

theorem drainLoop_join (cb : Nat) (q : List Nat) :
    ((drainLoop cb q).1).flatten ++ (drainLoop cb q).2 = q :=
  drainFuel_join cb q.length q

theorem drainLoop_blocks (cb : Nat) (q : List Nat) :
    ∀ b ∈ (drainLoop cb q).1, b.length = cb :=
  drainFuel_blocks cb q.length q

theorem drainLoop_resid (cb : Nat) (hcb : 0 < cb) (q : List Nat) :
    ((drainLoop cb q).2).length ≤ cb :=
  drainFuel_resid cb hcb q.length q (by omega)

/-! ### Lemmas about the accumulator across pushes -/

theorem accumRun_flatten (cb : Nat) : ∀ (ps : List (List Nat)) (resid : List Nat),
    ((accumRun cb resid ps).1).flatten ++ (accumRun cb resid ps).2 =
      resid ++ ps.flatten := by
  intro ps
  induction ps with
  | nil => intro resid; simp [accumRun]
  | cons p ps ih =>
    intro resid
    simp only [accumRun, List.flatten_append, List.flatten_cons, List.append_assoc]
    rw [ih (drainLoop cb (resid ++ p)).2]
    rw [← List.append_assoc _ (drainLoop cb (resid ++ p)).2 ps.flatten]
    rw [drainLoop_join cb (resid ++ p)]
    simp

theorem accumRun_blocks (cb : Nat) : ∀ (ps : List (List Nat)) (resid : List Nat),
    ∀ b ∈ (accumRun cb resid ps).1, b.length = cb := by
  intro ps
  induction ps with
  | nil => intro resid b hb; simp [accumRun] at hb
  | cons p ps ih =>
    intro resid b hb
    simp only [accumRun, List.mem_append] at hb
    rcases hb with hb | hb
    · exact drainLoop_blocks cb (resid ++ p) b hb
    · exact ih (drainLoop cb (resid ++ p)).2 b hb

theorem accumRun_resid_le (cb : Nat) (hcb : 0 < cb) :
    ∀ (ps : List (List Nat)) (resid : List Nat), resid.length ≤ cb →
    ((accumRun cb resid ps).2).length ≤ cb := by
  intro ps
  induction ps with
  | nil => intro resid h; simpa [accumRun] using h
  | cons p ps ih =>
    intro resid _
    simp only [accumRun]
    exact ih (drainLoop cb (resid ++ p)).2 (drainLoop_resid cb hcb (resid ++ p))

/-! ### Concrete scenario computations -/

theorem drainLoop_replicate_8192 :
    drainLoop 4096 (List.replicate 8192 (0 : Nat)) =
      ([List.replicate 4096 0], List.replicate 4096 0) := by
  have hlt : 4096 < (List.replicate 8192 (0 : Nat)).length := by
    rw [List.length_replicate]
    norm_num
  unfold drainLoop
  rw [List.length_replicate]
  nth_rewrite 1 [(by norm_num : (8192 : Nat) = 8191 + 1)]
  rw [drainFuel_succ 4096 8191 _ hlt]
  rw [List.take_replicate, List.drop_replicate]
  rw [(by norm_num : min (4096 : Nat) 8192 = 4096), (by norm_num : (8192 : Nat) - 4096 = 4096)]
  rw [drainFuel_of_le 4096 8191 _ (by rw [List.length_replicate])]

theorem accumRun_replicate_8192 :
    accumRun 4096 [] [List.replicate 8192 (0 : Nat)] =
      ([List.replicate 4096 0], List.replicate 4096 0) := by
  simp only [accumRun, List.nil_append, drainLoop_replicate_8192, List.append_nil]

theorem drainLoop_5000 (q : List Nat) (h : q.length = 5000) :
    drainLoop 4096 q = ([q.take 4096], q.drop 4096) := by
  have hlt : 4096 < q.length := by omega
  unfold drainLoop
  rw [h, (by norm_num : (5000 : Nat) = 4999 + 1), drainFuel_succ 4096 4999 q hlt]
  rw [drainFuel_of_le 4096 4999 _ (by rw [List.length_drop, h]; norm_num)]

/-! ### Claims about the Chunk Accumulator -/

/-- C1, counterexample: pushing exactly 8192 bytes with chunk size 4096
does not emit two Sample Blocks and does not leave the accumulator empty:
the drain guard is strict (len > chunk_bytes, main.rs line 67), so one
block is emitted and 4096 bytes remain buffered, which also refutes the
claimed residual bound of fewer than chunk_bytes bytes. -/
theorem accum_8192_two_blocks_refuted :
    (accumRun 4096 [] [List.replicate 8192 (0 : Nat)]).1.length = 1 ∧
    (accumRun 4096 [] [List.replicate 8192 (0 : Nat)]).2 ≠ [] ∧
    ¬ ((accumRun 4096 [] [List.replicate 8192 (0 : Nat)]).2.length < 4096) := by
  rw [accumRun_replicate_8192]
  refine ⟨rfl, ?_, ?_⟩
  · intro hc
    have h2 : List.replicate 4096 (0 : Nat) = [] := hc
    have h3 := congrArg List.length h2
    rw [List.length_replicate, List.length_nil] at h3
    exact absurd h3 (by norm_num)
  · show ¬ (List.replicate 4096 (0 : Nat)).length < 4096
    rw [List.length_replicate]
    omega

/-- C1 (amended): after the drain loop finishes, the accumulator retains at
most chunk_bytes buffered bytes (the loop only drains while strictly more
than chunk_bytes are buffered); pushing exactly 8192 bytes with
chunk_bytes = 4096 emits exactly one Sample Block and leaves 4096 bytes
buffered. -/
theorem accum_residual_at_most_chunk (cb : Nat) (ps : List (List Nat)) (h : 0 < cb) :
    ((accumRun cb [] ps).2).length ≤ cb ∧
    (accumRun 4096 [] [List.replicate 8192 (0 : Nat)]).1.length = 1 ∧
    (accumRun 4096 [] [List.replicate 8192 (0 : Nat)]).2.length = 4096 := by
  refine ⟨accumRun_resid_le cb h ps [] (by simp), ?_, ?_⟩
  · rw [accumRun_replicate_8192]
    rfl
  · rw [accumRun_replicate_8192]
    exact List.length_replicate 4096 0

/-- Witness for accum_residual_at_most_chunk at chunk size 4096 and the
scenario push itself. -/
theorem accum_residual_at_most_chunk_witness :
    0 < 4096 ∧
    ((accumRun 4096 [] [List.replicate 8192 (0 : Nat)]).2).length ≤ 4096 ∧
    (accumRun 4096 [] [List.replicate 8192 (0 : Nat)]).1.length = 1 ∧
    (accumRun 4096 [] [List.replicate 8192 (0 : Nat)]).2.length = 4096 :=
  ⟨by norm_num,
   accum_residual_at_most_chunk 4096 [List.replicate 8192 (0 : Nat)] (by norm_num)⟩

/-- C4: every emitted Sample Block is exactly chunk_frame_count * block_align
bytes long, and the in-order concatenation of the emitted blocks followed by
the residual equals the in-order concatenation of all bytes pushed: no byte
reordering, no byte loss beyond the trailing residual. -/
theorem accum_blocks_exact_and_lossless (blockalign chunksize : Nat)
    (ps : List (List Nat)) :
    (((accumRun (chunkBytes blockalign chunksize) [] ps).1).all
        (fun b => b.length == chunkBytes blockalign chunksize) = true) ∧
    ((accumRun (chunkBytes blockalign chunksize) [] ps).1).flatten ++
        (accumRun (chunkBytes blockalign chunksize) [] ps).2 = ps.flatten := by
  constructor
  · rw [List.all_eq_true]
    intro b hb
    exact beq_iff_eq.mpr (accumRun_blocks (chunkBytes blockalign chunksize) ps [] b hb)
  · rw [accumRun_flatten]
    rfl

/-- C5: pushing exactly 5000 bytes with chunk_bytes = 4096 emits exactly one
Sample Block, namely the first 4096 bytes pushed, and leaves exactly 904
bytes buffered. -/
theorem accum_5000_one_block (q : List Nat) (h : q.length = 5000) :
    accumRun 4096 [] [q] = ([q.take 4096], q.drop 4096) ∧
    (q.take 4096).length = 4096 ∧
    (q.drop 4096).length = 904 := by
  refine ⟨?_, ?_, ?_⟩
  · simp only [accumRun, List.nil_append, drainLoop_5000 q h, List.append_nil]
  · rw [List.length_take, h]
    exact min_eq_left (by norm_num)
  · rw [List.length_drop, h]

/-- Witness for accum_5000_one_block on a concrete 5000-byte push. -/
theorem accum_5000_one_block_witness :
    (List.replicate 5000 (0 : Nat)).length = 5000 ∧
    (accumRun 4096 [] [List.replicate 5000 (0 : Nat)] =
        ([(List.replicate 5000 (0 : Nat)).take 4096],
         (List.replicate 5000 (0 : Nat)).drop 4096) ∧
      ((List.replicate 5000 (0 : Nat)).take 4096).length = 4096 ∧
      ((List.replicate 5000 (0 : Nat)).drop 4096).length = 904) :=
  ⟨List.length_replicate 5000 0,
   accum_5000_one_block (List.replicate 5000 (0 : Nat)) (List.length_replicate 5000 0)⟩

/-- C9: under the drain-loop guard that the buffered queue length strictly
exceeds blockalign * chunksize, building one chunk by blockalign * chunksize
successive pop_front().unwrap() calls never hits an empty queue: popN
returns some, popping exactly blockalign * chunksize elements (the chunk is
the front of the queue, the rest remains).  The none outcome of popN is the
only situation in which unwrap would panic. -/
theorem drain_unwrap_never_panics (blockalign chunksize : Nat) (q : List Nat)
    (h : chunkBytes blockalign chunksize < q.length) :
    popN (chunkBytes blockalign chunksize) q =
      some (q.take (chunkBytes blockalign chunksize),
            q.drop (chunkBytes blockalign chunksize)) :=
  popN_eq_of_le (chunkBytes blockalign chunksize) q (Nat.le_of_lt h)

/-- Witness for drain_unwrap_never_panics on a concrete queue. -/
theorem drain_unwrap_never_panics_witness :
    chunkBytes 1 2 < ([3, 4, 5] : List Nat).length ∧
    popN (chunkBytes 1 2) [3, 4, 5] = some ([3, 4], [5]) := by
  refine ⟨by decide, ?_⟩
  rw [drain_unwrap_never_panics 1 2 [3, 4, 5] (by decide)]
  rfl

/-! ### Exit behaviour of the capture loop (main.rs lines 66-84)

Each iteration of the capture loop drains, reads from the device
(read_from_device_to_deque, whose error propagates out via the
question-mark operator), then waits on the device event with a 3000 ms
bound.  On timeout it logs the timeout-error message, calls
stop_stream, breaks out of the loop, and capture_loop returns Ok(()).
An iteration is summarised by which of these outcomes it reaches. -/

/-- One capture-loop iteration outcome: the device read fails, the bounded
wait times out, or the iteration completes and the loop continues. -/
inductive IterStep
  | readFail
  | timeout
  | cont
deriving DecidableEq

/-- The error type in the Res result of capture_loop: a device or send failure
propagated by the question-mark operator (reported by the spawning thread
as a Capture-failed message). -/
inductive CaptureErr
  | captureFailed
deriving DecidableEq

/-- How a terminated capture loop ended: the value capture_loop returned,
whether audio_client.stop_stream() was invoked, and whether the timeout
error message was logged. -/
structure CaptureExit where
  result : Except CaptureErr Unit
  stoppedStream : Bool
  loggedTimeout : Bool

/-- The exit of capture_loop, given iteration outcomes: a device-read failure
returns Err (no stop, no timeout log); a wait timeout logs, stops the
stream, and returns Ok(()); otherwise the loop keeps running (none means
the loop has not terminated within the given iterations).  stop_stream
itself is modelled as succeeding. -/
def captureRun : List IterStep → Option CaptureExit
  | [] => none
  | IterStep.readFail :: _ =>
    some ⟨Except.error CaptureErr.captureFailed, false, false⟩
  | IterStep.timeout :: _ => some ⟨Except.ok (), true, true⟩
  | IterStep.cont :: rest => captureRun rest

/-- C3, counterexample: when the bounded wait times out, capture_loop stops
the stream and terminates, but it returns Ok(()) — the timeout is not
propagated as a CaptureFailed error, so the Capture-failed report of the
spawning thread never fires for a timeout. -/
theorem capture_timeout_returns_ok :
    (captureRun [IterStep.timeout]).map CaptureExit.result = some (Except.ok ()) ∧
    (captureRun [IterStep.timeout]).map CaptureExit.result ≠
      some (Except.error CaptureErr.captureFailed) ∧
    (captureRun [IterStep.timeout]).map CaptureExit.stoppedStream = some true := by
  refine ⟨rfl, ?_, rfl⟩
  intro hc
  simp [captureRun] at hc

/-- C3 (amended): a bounded-wait timeout is fatal to the capture loop —
after any number of completed iterations, a timeout terminates the loop,
stops the audio stream, and logs the timeout — but capture_loop returns
Ok(()) rather than propagating a CaptureFailed error, while a device read
failure does return an error that the spawning thread reports. -/
theorem capture_timeout_stops_and_logs (n : Nat) :
    captureRun (List.replicate n IterStep.cont ++ [IterStep.timeout]) =
      some ⟨Except.ok (), true, true⟩ ∧
    captureRun (List.replicate n IterStep.cont ++ [IterStep.readFail]) =
      some ⟨Except.error CaptureErr.captureFailed, false, false⟩ := by
  induction n with
  | zero => exact ⟨rfl, rfl⟩
  | succ n ih =>
    rw [List.replicate_succ]
    exact ih

/-! ### The accept/read loop of the receiver (main.rs lines 140-165)

The receiver binds a TcpListener and, for each accepted connection,
repeatedly reads: a zero-length read logs and breaks back to the accept
loop; a read error propagates out of main via the question-mark operator,
terminating the whole process.  A connection is summarised by the
sequence of its read outcomes. -/

/-- One read on the active connection: n bytes received (n = 0 is the
orderly-shutdown signal), or an I/O error. -/
inductive ReadEvent
  | bytesRead (n : Nat)
  | fail
deriving DecidableEq

/-- The receiver-side error: a failed read on the active connection,
propagated out of main by the question-mark operator. -/
inductive ServerErr
  | peerReadFailed
deriving DecidableEq

/-- The inner read loop for one accepted connection: ok means the loop
broke on a zero-length read (or the connection script ended) and control
returns to the accept loop; error means the read failed and the error
propagates out of main. -/
def serveConn : List ReadEvent → Except ServerErr Unit
  | [] => Except.ok ()
  | ReadEvent.bytesRead 0 :: _ => Except.ok ()
  | ReadEvent.bytesRead (_ + 1) :: rest => serveConn rest
  | ReadEvent.fail :: _ => Except.error ServerErr.peerReadFailed

/-- The accept loop over successive connections: counts connections served
to completion; a read error on any connection aborts the whole loop (and
with it the process), never reaching the remaining connections. -/
def serverRun : List (List ReadEvent) → Except ServerErr Nat
  | [] => Except.ok 0
  | c :: cs =>
    match serveConn c with
    | Except.ok _ => (serverRun cs).map (fun k => k + 1)
    | Except.error e => Except.error e

/-- C2: a read error on the active connection is not recovered from — it
propagates out of main and terminates the receiver, so a later connection
is never accepted; only a zero-length read (orderly peer shutdown) returns
the receiver to Listening, as the second conjunct shows for two
connections that both shut down cleanly. -/
theorem receiver_read_error_terminates :
    serverRun [[ReadEvent.fail], [ReadEvent.bytesRead 0]] =
      Except.error ServerErr.peerReadFailed ∧
    serverRun [[ReadEvent.bytesRead 3, ReadEvent.bytesRead 0],
               [ReadEvent.bytesRead 0]] = Except.ok 2 :=
  ⟨rfl, rfl⟩

/-! ### The sink loop of the sender (main.rs lines 123-136)

The network thread repeatedly receives a chunk from the channel, writes
the whole chunk to the TCP stream (stream.write_all, question-mark), then
writes the whole chunk to the local log file (outfile.write_all,
question-mark).  A run is summarised by the chunks drained, each tagged
with whether its two write_all calls succeed; a failed write_all is
modelled as writing nothing and aborting the loop. -/

/-- One chunk drained from the channel during the sink loop, with the
outcome of its connection write and its log-file write. -/
structure SinkEntry where
  chunk : List Nat
  connOk : Bool
  fileOk : Bool
deriving DecidableEq

/-- Why the sink loop stopped: the channel was exhausted, the connection
write failed, or the log-file write failed. -/
inductive SinkExit
  | drained
  | connWriteFailed
  | fileWriteFailed
deriving DecidableEq

/-- The bytes written by a sink-loop run: connBytes is everything written
to the TCP stream and fileBytes everything written to recorded.raw, each
concatenated in write order. -/
structure SinkResult where
  connBytes : List Nat
  fileBytes : List Nat
  exit : SinkExit
deriving DecidableEq

/-- The sink loop (main.rs lines 123-136): for each drained chunk, write it
to the connection, then to the log file; the first failed write aborts the
loop, so a chunk whose connection write fails reaches neither output, and
a chunk whose log write fails reaches only the connection. -/
def sinkRun : List SinkEntry → SinkResult
  | [] => ⟨[], [], SinkExit.drained⟩
  | e :: rest =>
    if e.connOk then
      if e.fileOk then
        let r := sinkRun rest
        ⟨e.chunk ++ r.connBytes, e.chunk ++ r.fileBytes, r.exit⟩
      else ⟨e.chunk, [], SinkExit.fileWriteFailed⟩
    else ⟨[], [], SinkExit.connWriteFailed⟩

/-- Observation function for the wording of the spec: the chunks whose
connection write completed successfully, in order, in a sink-loop run. -/
def connCompleted : List SinkEntry → List (List Nat)
  | [] => []
  | e :: rest =>
    if e.connOk then
      if e.fileOk then e.chunk :: connCompleted rest
      else [e.chunk]
    else []

/-- Observation function for the wording of the spec: the chunks that completed
both the connection write and the log-file write, in order. -/
def bothCompleted : List SinkEntry → List (List Nat)
  | [] => []
  | e :: rest =>
    if e.connOk then
      if e.fileOk then e.chunk :: bothCompleted rest
      else []
    else []

/-- C6: when every write succeeds, the bytes written to the local log
file, concatenated in order, equal the bytes written to the connection,
concatenated in order. -/
theorem sink_file_eq_conn (l : List SinkEntry)
    (h : l.all (fun e => e.connOk && e.fileOk) = true) :
    (sinkRun l).fileBytes = (sinkRun l).connBytes := by
  induction l with
  | nil => rfl
  | cons e rest ih =>
    rw [List.all_cons, Bool.and_eq_true, Bool.and_eq_true] at h
    simp only [sinkRun, h.1.1, h.1.2, if_true]
    rw [ih h.2]

/-- Witness for sink_file_eq_conn on a concrete two-chunk run. -/
theorem sink_file_eq_conn_witness :
    (([⟨[1, 2], true, true⟩, ⟨[3], true, true⟩] : List SinkEntry).all
        (fun e => e.connOk && e.fileOk) = true) ∧
    (sinkRun [⟨[1, 2], true, true⟩, ⟨[3], true, true⟩]).fileBytes =
      (sinkRun [⟨[1, 2], true, true⟩, ⟨[3], true, true⟩]).connBytes :=
  ⟨by decide, sink_file_eq_conn [⟨[1, 2], true, true⟩, ⟨[3], true, true⟩] (by decide)⟩

/-- C10, counterexample: a chunk whose connection write succeeds but whose
log-file write fails is written to the connection yet absent from the log,
so the log content is not the concatenation of exactly the
connection-completed chunks at that point. -/
theorem sink_log_misses_conn_written_chunk :
    (sinkRun [(⟨[7], true, false⟩ : SinkEntry)]).connBytes = [7] ∧
    (sinkRun [(⟨[7], true, false⟩ : SinkEntry)]).fileBytes = [] ∧
    (connCompleted [(⟨[7], true, false⟩ : SinkEntry)]).flatten = [7] ∧
    (sinkRun [(⟨[7], true, false⟩ : SinkEntry)]).fileBytes ≠
      (connCompleted [(⟨[7], true, false⟩ : SinkEntry)]).flatten := by
  refine ⟨rfl, rfl, rfl, ?_⟩
  intro hc
  simp [sinkRun, connCompleted] at hc

/-- C10 (amended): each chunk is written in full to the connection before
the log file; the log content is the concatenation of exactly those chunks
that completed both writes — an initial segment of the
connection-completed chunks — and is a prefix of the bytes written to the
connection, so a chunk whose connection write fails is never appended to
the log; when a log write itself fails, the one connection-written chunk
it concerns is absent from the log. -/
theorem sink_log_is_conn_completed_front (l : List SinkEntry) :
    (sinkRun l).connBytes = (connCompleted l).flatten ∧
    (sinkRun l).fileBytes = (bothCompleted l).flatten ∧
    (∃ t, (sinkRun l).connBytes = (sinkRun l).fileBytes ++ t) ∧
    (∃ t, connCompleted l = bothCompleted l ++ t) := by
  induction l with
  | nil => exact ⟨rfl, rfl, ⟨[], rfl⟩, ⟨[], rfl⟩⟩
  | cons e rest ih =>
    by_cases hc : e.connOk
    · by_cases hf : e.fileOk
      · obtain ⟨h1, h2, ⟨t, ht⟩, ⟨u, hu⟩⟩ := ih
        refine ⟨?_, ?_, ⟨t, ?_⟩, ⟨u, ?_⟩⟩
        · simp only [sinkRun, connCompleted, hc, hf, if_true, List.flatten_cons, h1]
        · simp only [sinkRun, bothCompleted, hc, hf, if_true, List.flatten_cons, h2]
        · simp only [sinkRun, hc, hf, if_true, ht, List.append_assoc]
        · simp only [connCompleted, bothCompleted, hc, hf, if_true, hu, List.cons_append]
      · refine ⟨?_, ?_, ⟨e.chunk, ?_⟩, ⟨[e.chunk], ?_⟩⟩ <;>
          simp [sinkRun, connCompleted, bothCompleted, hc, hf]
    · refine ⟨?_, ?_, ⟨[], ?_⟩, ⟨[], ?_⟩⟩ <;>
        simp [sinkRun, connCompleted, bothCompleted, hc]

/-! ### The Transport Channel (main.rs lines 99-103)

The channel is std::sync::mpsc::sync_channel(2), a standard-library
collaborator whose code is not part of this repository.  Modelled from
the spec: a bounded FIFO queue of capacity 2; send suspends the caller
when the queue is full, receive suspends when it is empty.  The model
records the history of sent and received blocks alongside the queue; a
suspended operation leaves the state unchanged. -/

/-- Modelled from the spec: the state of the bounded Transport Channel —
its capacity, the blocks currently queued (front = oldest), and the
histories of blocks sent into and received out of it. -/
structure Channel where
  cap : Nat
  queue : List (List Nat)
  sent : List (List Nat)
  received : List (List Nat)

/-- A freshly created channel of the given capacity, as returned by
mpsc::sync_channel. -/
def Channel.init (cap : Nat) : Channel := ⟨cap, [], [], []⟩

/-- Modelled from the spec: send completes only while the queue holds
fewer than cap blocks, appending the block at the back; a send on a full
queue suspends the caller (none). -/
def Channel.send (ch : Channel) (b : List Nat) : Option Channel :=
  if ch.queue.length < ch.cap then
    some ⟨ch.cap, ch.queue ++ [b], ch.sent ++ [b], ch.received⟩
  else none

/-- Modelled from the spec: receive completes only on a non-empty queue,
returning the oldest block; a receive on an empty queue suspends the
caller (none). -/
def Channel.receive (ch : Channel) : Option (Channel × List Nat) :=
  match ch.queue with
  | [] => none
  | b :: rest => some (⟨ch.cap, rest, ch.sent, ch.received ++ [b]⟩, b)

/-- One attempted channel operation by either side. -/
inductive ChOp
  | send (b : List Nat)
  | recv

/-- Run a sequence of attempted operations; an operation that would
suspend leaves the channel unchanged. -/
def runOps : Channel → List ChOp → Channel
  | ch, [] => ch
  | ch, ChOp.send b :: rest =>
    match ch.send b with
    | some ch2 => runOps ch2 rest
    | none => runOps ch rest
  | ch, ChOp.recv :: rest =>
    match ch.receive with
    | some p => runOps p.1 rest
    | none => runOps ch rest

/-- A producer that keeps calling send while the consumer never calls
receive: returns the final channel and how many send calls completed. -/
def sendAll : Channel → List (List Nat) → Channel × Nat
  | ch, [] => (ch, 0)
  | ch, b :: rest =>
    match ch.send b with
    | some ch2 =>
      let r := sendAll ch2 rest
      (r.1, r.2 + 1)
    | none => sendAll ch rest

/-! ### Channel lemmas -/

theorem runOps_inv : ∀ (ops : List ChOp) (ch : Channel),
    ch.sent = ch.received ++ ch.queue →
    (runOps ch ops).sent = (runOps ch ops).received ++ (runOps ch ops).queue := by
  intro ops
  induction ops with
  | nil => intro ch h; exact h
  | cons op rest ih =>
    intro ch h
    cases op with
    | send b =>
      simp only [runOps, Channel.send]
      by_cases hlt : ch.queue.length < ch.cap
      · rw [if_pos hlt]
        exact ih _ (by simp [h])
      · rw [if_neg hlt]
        exact ih ch h
    | recv =>
      simp only [runOps, Channel.receive]
      cases hq : ch.queue with
      | nil => exact ih ch h
      | cons b q =>
        refine ih _ ?_
        simp only
        rw [h, hq, List.append_assoc]
        rfl

theorem runOps_bound : ∀ (ops : List ChOp) (ch : Channel),
    ch.queue.length ≤ ch.cap →
    (runOps ch ops).queue.length ≤ ch.cap ∧ (runOps ch ops).cap = ch.cap := by
  intro ops
  induction ops with
  | nil => intro ch h; exact ⟨h, rfl⟩
  | cons op rest ih =>
    intro ch h
    cases op with
    | send b =>
      simp only [runOps, Channel.send]
      by_cases hlt : ch.queue.length < ch.cap
      · rw [if_pos hlt]
        exact ih _ (by simp; omega)
      · rw [if_neg hlt]
        exact ih ch h
    | recv =>
      simp only [runOps, Channel.receive]
      cases hq : ch.queue with
      | nil => exact ih ch h
      | cons b q =>
        refine ih _ ?_
        simp only
        rw [hq] at h
        simp at h
        omega

theorem sendAll_spec : ∀ (bs : List (List Nat)) (ch : Channel),
    (sendAll ch bs).2 = min bs.length (ch.cap - ch.queue.length) ∧
    (sendAll ch bs).1.queue.length =
      ch.queue.length + min bs.length (ch.cap - ch.queue.length) ∧
    (sendAll ch bs).1.cap = ch.cap := by
  intro bs
  induction bs with
  | nil =>
    intro ch
    refine ⟨by simp [sendAll], by simp [sendAll], rfl⟩
  | cons b rest ih =>
    intro ch
    by_cases hlt : ch.queue.length < ch.cap
    · have hred : sendAll ch (b :: rest) =
          ((sendAll ⟨ch.cap, ch.queue ++ [b], ch.sent ++ [b], ch.received⟩ rest).1,
           (sendAll ⟨ch.cap, ch.queue ++ [b], ch.sent ++ [b], ch.received⟩ rest).2 + 1) := by
        simp only [sendAll, Channel.send, if_pos hlt]
      obtain ⟨h1, h2, h3⟩ := ih ⟨ch.cap, ch.queue ++ [b], ch.sent ++ [b], ch.received⟩
      simp only [List.length_append, List.length_cons, List.length_nil] at h1 h2
      rw [hred]
      refine ⟨?_, ?_, h3⟩
      · simp only [List.length_cons]
        rw [h1]
        omega
      · simp only [List.length_cons]
        rw [h2]
        omega
    · have hred : sendAll ch (b :: rest) = sendAll ch rest := by
        simp only [sendAll, Channel.send, if_neg hlt]
      obtain ⟨h1, h2, h3⟩ := ih ch
      rw [hred]
      refine ⟨?_, ?_, h3⟩
      · rw [h1]
        simp only [List.length_cons]
        omega
      · rw [h2]
        simp only [List.length_cons]
        omega

/-- C7: FIFO delivery through the Transport Channel — in any interleaving
of send and receive operations on a sync_channel(2) starting empty, the
blocks sent so far are exactly the blocks already received followed by
the blocks still queued: receive returns the sent blocks in exactly their
send order, with no reordering, duplication, or loss. -/
theorem channel_fifo (ops : List ChOp) :
    (runOps (Channel.init 2) ops).sent =
      (runOps (Channel.init 2) ops).received ++ (runOps (Channel.init 2) ops).queue :=
  runOps_inv ops (Channel.init 2) rfl

/-- C8: backpressure — if the consumer never calls receive, exactly 2 send
calls complete (the channel capacity), the send after them suspends, and
in any interleaving at all the channel never holds more than 2 blocks. -/
theorem channel_backpressure (bs : List (List Nat)) (b : List Nat)
    (h : 2 ≤ bs.length) (ops : List ChOp) :
    (sendAll (Channel.init 2) bs).2 = 2 ∧
    Channel.send (sendAll (Channel.init 2) bs).1 b = none ∧
    (runOps (Channel.init 2) ops).queue.length ≤ 2 := by
  obtain ⟨h1, h2, h3⟩ := sendAll_spec bs (Channel.init 2)
  have hm : min bs.length (2 - 0) = 2 := by
    rw [Nat.min_def]
    split <;> omega
  refine ⟨?_, ?_, (runOps_bound ops (Channel.init 2) (by simp [Channel.init])).1⟩
  · rw [h1]
    simpa [Channel.init] using hm
  · rw [Channel.send, if_neg]
    rw [h2, h3]
    simp [Channel.init]
    omega

/-- Witness for channel_backpressure on a concrete three-block producer. -/
theorem channel_backpressure_witness :
    2 ≤ ([[0], [1], [2]] : List (List Nat)).length ∧
    ((sendAll (Channel.init 2) [[0], [1], [2]]).2 = 2 ∧
      Channel.send (sendAll (Channel.init 2) [[0], [1], [2]]).1 [9] = none ∧
      (runOps (Channel.init 2) [ChOp.send [5], ChOp.recv]).queue.length ≤ 2) :=
  ⟨by decide,
   channel_backpressure [[0], [1], [2]] [9] (by decide) [ChOp.send [5], ChOp.recv]⟩

end AudioWire
